import Mathlib

/-!
Verification of the r3 / constance RTOS kernel against its specification.

The definitions below are shallow embeddings of the Rust sources:
 - `src/src/r3/src/kernel/timer.rs` (timers),
 - `src/src/constance/src/kernel/wait.rs` (wait queues),
 - `src/src/constance/src/kernel/cfg.rs` (hunk configuration),
 - `src/src/constance_port_std/src/lib.rs` (hosted-port interrupt lines),
 - `src/src/r3/src/kernel/semaphore.rs` (semaphore definer).

Machine integers are modelled as `Nat` with explicit reduction modulo `2^32`
where the source uses wrapping 32-bit arithmetic.  Code that lives in the
repository but outside the provided sources (e.g. `kernel/timeout.rs`,
`kernel/task.rs`, the hosted-port scheduler `sched.rs`) is modelled from the
specification; every such definition carries a doc comment starting with
`Modelled from the spec:`.
-/

/-! ## Time base -/

/-- The 32-bit tick domain: all tick arithmetic is performed modulo `2^32`. -/
def TICK_MOD : Nat := 2 ^ 32

/-- Modelled from the spec: `BAD_DURATION32` (`kernel/timeout.rs`, not under
`src/`), the reserved sentinel duration meaning "infinity / not scheduled". -/
def BAD_DURATION32 : Nat := TICK_MOD - 1

/-- Modelled from the spec: `TIME_USER_HEADROOM` - the largest modular
difference that still counts as "in the future" (approximately `2^31`). -/
def TIME_USER_HEADROOM : Nat := 2 ^ 31

/-- Modular tick difference `(b - a) mod 2^32`, the spec's "`(B − A) mod 2³²`". -/
def ticks_until (a b : Nat) : Nat := (b + TICK_MOD - a % TICK_MOD) % TICK_MOD

/-! ## Timers (`src/src/r3/src/kernel/timer.rs`) -/

/-- The state data of a timer (`TimerCb` in `timer.rs`).  The timeout record is
inlined: `linked` says whether the timeout object is linked in the timeout set,
and `at_raw` is the timeout's raw tick field (the absolute expiration when
linked; the captured relative delay - or the sentinel - when unlinked). -/
structure TimerCb where
  linked : Bool
  at_raw : Nat
  active : Bool
  period : Nat
deriving DecidableEq, Repr

/-- Modelled from the spec: `Timeout::set_at_raw` (`kernel/timeout.rs`, not
under `src/`): store a raw value into the timeout's absolute-tick field. -/
def set_at_raw (v : Nat) (t : TimerCb) : TimerCb := { t with at_raw := v }

/-- Modelled from the spec: `Timeout::adjust_expiration` (`kernel/timeout.rs`,
not under `src/`): advance the absolute expiration by an offset, modularly
(`expiration += period`, 32-bit wrapping). -/
def adjust_expiration (offset : Nat) (t : TimerCb) : TimerCb :=
  { t with at_raw := (t.at_raw + offset) % TICK_MOD }

/-- Modelled from the spec: `Timeout::set_expiration_after` (`kernel/timeout.rs`,
not under `src/`): set the absolute expiration to the current time plus a
relative delay (32-bit wrapping). -/
def set_expiration_after (now delay : Nat) (t : TimerCb) : TimerCb :=
  { t with at_raw := (now + delay) % TICK_MOD }

/-- Modelled from the spec: `insert_timeout` (`kernel/timeout.rs`, not under
`src/`): link the timeout object into the timeout set. -/
def insert_timeout (t : TimerCb) : TimerCb := { t with linked := true }

/-- Modelled from the spec: `remove_timeout` (`kernel/timeout.rs`, not under
`src/`): unlink the timeout object from the timeout set. -/
def remove_timeout (t : TimerCb) : TimerCb := { t with linked := false }

/-- Modelled from the spec: `Timeout::saturating_duration_until_timeout`
(`kernel/timeout.rs`, not under `src/`): the remaining time until the
expiration, saturated to a non-negative value (an overdue expiration - a
modular difference beyond the user headroom - yields `0`). -/
def saturating_duration_until_timeout (now : Nat) (t : TimerCb) : Nat :=
  let d := ticks_until now t.at_raw
  if d ≤ TIME_USER_HEADROOM then d else 0

/-- `init_timer` from `timer.rs`: at boot, if the timer starts active and its
initial delay is finite, link the timeout; then mark the timer Active. -/
def init_timer (init_active : Bool) (t : TimerCb) : TimerCb :=
  if init_active then
    let t1 := if t.at_raw ≠ BAD_DURATION32 then insert_timeout t else t
    { t1 with active := true }
  else t

/-- `start_timer` from `timer.rs`: no effect if already Active; otherwise, if
the stored delay is finite, schedule the next tick at `now + delay` and link;
finally mark the timer Active. -/
def start_timer (now : Nat) (t : TimerCb) : TimerCb :=
  if t.active then t
  else
    let delay := t.at_raw
    let t1 :=
      if delay ≠ BAD_DURATION32 then
        insert_timeout (set_expiration_after now delay t)
      else t
    { t1 with active := true }

/-- `stop_timer` from `timer.rs`: if the timeout is linked, capture the current
(saturated) remaining delay, unlink, and store the captured value; finally mark
the timer Dormant. -/
def stop_timer (now : Nat) (t : TimerCb) : TimerCb :=
  let t1 :=
    if t.linked then
      let delay := saturating_duration_until_timeout now t
      set_at_raw delay (remove_timeout t)
    else t
  { t1 with active := false }

/-- `set_timer_delay` from `timer.rs`: unlink the timeout if it is linked; then
if the timer is Active and the new delay is finite, re-arm at `now + delay` and
re-link; otherwise store the raw delay value (possibly the sentinel). -/
def set_timer_delay (now delay : Nat) (t : TimerCb) : TimerCb :=
  let is_active := t.active
  let t1 := if t.linked then remove_timeout t else t
  if is_active ∧ delay ≠ BAD_DURATION32 then
    insert_timeout (set_expiration_after now delay t1)
  else
    set_at_raw delay t1

/-- `set_timer_period` from `timer.rs`: write-through of the period field. -/
def set_timer_period (period : Nat) (t : TimerCb) : TimerCb :=
  { t with period := period }

/-- Result of `timer_timeout_handler`: the timer state after the handler, the
CPU Lock state observed at the point the application callback is invoked, and
the CPU Lock state after the handler returns. -/
structure TimerHandlerResult where
  timer : TimerCb
  cpu_lock_at_callback : Bool
  cpu_lock_after : Bool
deriving DecidableEq, Repr

/-- `timer_timeout_handler` from `timer.rs`.  The handler runs with CPU Lock
held (it receives a `CpuLockGuard`).  If the period is the infinity sentinel it
stores the sentinel in the raw tick field (leaving the timeout unlinked);
otherwise it advances the absolute expiration by the period and re-links.  It
then drops the CPU Lock guard, invokes the application callback, and re-acquires
CPU Lock before returning. -/
def timer_timeout_handler (t : TimerCb) : TimerHandlerResult :=
  let t1 :=
    if t.period = BAD_DURATION32 then
      set_at_raw BAD_DURATION32 t
    else
      insert_timeout (adjust_expiration t.period t)
  let cpu_lock_during_callback := false
  { timer := t1
    cpu_lock_at_callback := cpu_lock_during_callback
    cpu_lock_after := true }

/-- Expiration of a linked timer's timeout as performed by the timeout set:
the timeout is unlinked by the expiration machinery before the timer's timeout
callback (`timer_timeout_handler`) runs. -/
def expire_timer (t : TimerCb) : TimerCb :=
  if t.linked then (timer_timeout_handler (remove_timeout t)).timer else t

/-- The operations that mutate a timer's state. -/
inductive TimerOp
  | init (init_active : Bool)
  | start
  | stop
  | setDelay (delay : Nat)
  | setPeriod (period : Nat)
  | expire
deriving DecidableEq, Repr

/-- Apply a timer operation at time `now`. -/
def applyTimerOp (op : TimerOp) (now : Nat) (t : TimerCb) : TimerCb :=
  match op with
  | .init ia => init_timer ia t
  | .start => start_timer now t
  | .stop => stop_timer now t
  | .setDelay d => set_timer_delay now d t
  | .setPeriod p => set_timer_period p t
  | .expire => expire_timer t

/-- The timer representation invariant (spec §4.9): the timeout object is
linked iff the timer is Active and its delay is finite.  A linked timeout
implies an Active timer; an Active timer whose timeout is unlinked holds the
infinity sentinel in the raw tick field (so the delay - here, infinity - is
retrievable from it). -/
def TimerInv (t : TimerCb) : Prop :=
  (t.linked = true → t.active = true) ∧
  (t.active = true → t.linked = false → t.at_raw = BAD_DURATION32)

/-! ## Hunk configuration (`src/src/constance/src/kernel/cfg.rs`) -/

/-- A defined hunk: its starting offset in the hunk pool, its byte length, and
the alignment that was required for it. -/
structure HunkRange where
  offset : Nat
  size : Nat
  align : Nat
deriving DecidableEq, Repr

/-- The hunk-related fields of `CfgBuilder` (`cfg.rs`).  The source stores each
hunk's offset (in `HunkInitAttr`) and hands its offset/length out through
`Hunk::from_range`; the required alignment is recorded here as well so that the
alignment properties can be stated. -/
structure CfgBuilderHunks where
  hunks : List HunkRange
  hunk_pool_len : Nat
  hunk_pool_align : Nat
deriving DecidableEq, Repr

/-- `CfgBuilder::new()` (`cfg.rs`): no hunks, pool length 0, pool alignment 1. -/
def CfgBuilder_new : CfgBuilderHunks :=
  { hunks := [], hunk_pool_len := 0, hunk_pool_align := 1 }

/-- `usize::is_power_of_two` (Rust): exactly one bit set. -/
def is_power_of_two (n : Nat) : Bool := n ≠ 0 && (n &&& (n - 1)) == 0

/-- `cfg_new_hunk::<T>` from `cfg.rs` with `align = mem::align_of::<T>()` and
`size = mem::size_of::<T>()`: round `hunk_pool_len` up to `align`, append a
hunk at the rounded offset, grow the pool by `size`, and raise the pool
alignment to `align` if it is larger. -/
def cfg_new_hunk (align size : Nat) (cfg : CfgBuilderHunks) : CfgBuilderHunks :=
  let len1 := (cfg.hunk_pool_len + align - 1) / align * align
  { hunks := cfg.hunks ++ [⟨len1, size, align⟩]
    hunk_pool_len := len1 + size
    hunk_pool_align :=
      if align > cfg.hunk_pool_align then align else cfg.hunk_pool_align }

/-- `cfg_new_hunk_zero_array::<T>` from `cfg.rs` with
`elemAlign = mem::align_of::<T>()` and `elemSize = mem::size_of::<T>()`:
the requested alignment must be a power of two (the source panics otherwise,
modelled as `none`); the effective alignment is the larger of the requested
alignment and the element alignment; then proceed as for `cfg_new_hunk` with
byte length `elemSize * len`. -/
def cfg_new_hunk_zero_array (elemAlign elemSize len reqAlign : Nat)
    (cfg : CfgBuilderHunks) : Option CfgBuilderHunks :=
  if ¬ is_power_of_two reqAlign then none
  else
    let align := if elemAlign > reqAlign then elemAlign else reqAlign
    let byte_len := elemSize * len
    let len1 := (cfg.hunk_pool_len + align - 1) / align * align
    some
      { hunks := cfg.hunks ++ [⟨len1, byte_len, align⟩]
        hunk_pool_len := len1 + byte_len
        hunk_pool_align :=
          if align > cfg.hunk_pool_align then align else cfg.hunk_pool_align }

/-- A hunk definition processed by the configuration builder: either a typed
hunk (`new_hunk!(T)`) or a zero-initialized array hunk
(`new_hunk!([T], zeroed = true, len = LEN, align = ALIGN)`). -/
inductive HunkDef
  | typed (align size : Nat)
  | zeroArray (elemAlign elemSize len reqAlign : Nat)
deriving DecidableEq, Repr

/-- Process one hunk definition. -/
def applyHunkDef (cfg : CfgBuilderHunks) : HunkDef → Option CfgBuilderHunks
  | .typed align size => some (cfg_new_hunk align size cfg)
  | .zeroArray ea es l ra => cfg_new_hunk_zero_array ea es l ra cfg

/-- Process a sequence of hunk definitions, starting from `cfg`. -/
def buildHunksFrom (cfg : CfgBuilderHunks) : List HunkDef → Option CfgBuilderHunks
  | [] => some cfg
  | d :: ds =>
    match applyHunkDef cfg d with
    | none => none
    | some cfg1 => buildHunksFrom cfg1 ds

/-- Process a sequence of hunk definitions from the fresh builder. -/
def buildHunks (ds : List HunkDef) : Option CfgBuilderHunks :=
  buildHunksFrom CfgBuilder_new ds

/-- The alignment guarantee Rust gives for every type: `mem::align_of` returns
a (positive) power of two. -/
def HunkDefWF : HunkDef → Prop
  | .typed align _ => is_power_of_two align = true
  | .zeroArray elemAlign _ _ _ => is_power_of_two elemAlign = true

/-- Two hunks occupy non-overlapping byte ranges. -/
def HunkDisjoint (a b : HunkRange) : Prop :=
  a.offset + a.size ≤ b.offset ∨ b.offset + b.size ≤ a.offset

/-- Internal well-formedness of the hunk builder state: hunks are laid out in
order without overlap inside the pool, every offset is aligned, and the pool
alignment dominates every hunk's alignment. -/
def CfgHunksWF (cfg : CfgBuilderHunks) : Prop :=
  List.Pairwise (fun a b => a.offset + a.size ≤ b.offset) cfg.hunks ∧
  (∀ h ∈ cfg.hunks, h.offset + h.size ≤ cfg.hunk_pool_len) ∧
  (∀ h ∈ cfg.hunks, h.offset % h.align = 0) ∧
  (∀ h ∈ cfg.hunks, h.align ≤ cfg.hunk_pool_align) ∧
  1 ≤ cfg.hunk_pool_align

/-! ## Hosted-port interrupt lines (`src/src/constance_port_std/src/lib.rs`) -/

/-- `NUM_INTERRUPT_LINES` from `constance_port_std/src/lib.rs`: the hosted port
has 1024 interrupt lines; valid numbers are `0..NUM_INTERRUPT_LINES`. -/
def NUM_INTERRUPT_LINES : Nat := 1024

/-- The per-line state kept by the hosted port's scheduler: priority (a signed
16-bit value, modelled as `Int`), enable flag and pended flag. -/
structure IntLine where
  priority : Int
  enable : Bool
  pended : Bool
deriving DecidableEq, Repr

/-- The interrupt-line table of the hosted port's scheduler state. -/
structure SchedIntState where
  lines : Nat → IntLine

/-- The per-line error of the hosted-port scheduler and the `BadParam` error
kind the port operations translate it into. -/
inductive IntLineError
  | badParam
deriving DecidableEq, Repr

/-- Modelled from the spec: `SchedState::update_line` of the hosted port's
user-mode scheduler (`constance_port_std/src/sched.rs`, not under `src/`):
apply an update closure to the line if its number is within the configured
range `0..NUM_INTERRUPT_LINES`, otherwise fail with a bad-line error and leave
every line unchanged. -/
def update_line (st : SchedIntState) (num : Nat) (f : IntLine → IntLine) :
    Option SchedIntState :=
  if num < NUM_INTERRUPT_LINES then
    some { lines := fun i => if i = num then f (st.lines i) else st.lines i }
  else none

/-- Modelled from the spec: `SchedState::is_line_pended`
(`constance_port_std/src/sched.rs`, not under `src/`): read the pended flag of
a line within range, or fail. -/
def is_line_pended (st : SchedIntState) (num : Nat) : Option Bool :=
  if num < NUM_INTERRUPT_LINES then some (st.lines num).pended else none

/-- `State::set_interrupt_line_priority` from `constance_port_std/src/lib.rs`:
write the priority through `update_line`, mapping the bad-line error to
`BadParam`. -/
def port_set_interrupt_line_priority (st : SchedIntState) (num : Nat)
    (priority : Int) : Except IntLineError SchedIntState :=
  match update_line st num (fun l => { l with priority := priority }) with
  | some st1 => .ok st1
  | none => .error .badParam

/-- `State::enable_interrupt_line` from `constance_port_std/src/lib.rs`. -/
def port_enable_interrupt_line (st : SchedIntState) (num : Nat) :
    Except IntLineError SchedIntState :=
  match update_line st num (fun l => { l with enable := true }) with
  | some st1 => .ok st1
  | none => .error .badParam

/-- `State::disable_interrupt_line` from `constance_port_std/src/lib.rs`. -/
def port_disable_interrupt_line (st : SchedIntState) (num : Nat) :
    Except IntLineError SchedIntState :=
  match update_line st num (fun l => { l with enable := false }) with
  | some st1 => .ok st1
  | none => .error .badParam

/-- `State::pend_interrupt_line` from `constance_port_std/src/lib.rs`. -/
def port_pend_interrupt_line (st : SchedIntState) (num : Nat) :
    Except IntLineError SchedIntState :=
  match update_line st num (fun l => { l with pended := true }) with
  | some st1 => .ok st1
  | none => .error .badParam

/-- `State::clear_interrupt_line` from `constance_port_std/src/lib.rs`. -/
def port_clear_interrupt_line (st : SchedIntState) (num : Nat) :
    Except IntLineError SchedIntState :=
  match update_line st num (fun l => { l with pended := false }) with
  | some st1 => .ok st1
  | none => .error .badParam

/-- `State::is_interrupt_line_pending` from `constance_port_std/src/lib.rs`. -/
def port_is_interrupt_line_pending (st : SchedIntState) (num : Nat) :
    Except IntLineError Bool :=
  match is_line_pended st num with
  | some b => .ok b
  | none => .error .badParam

/-- The managed interrupt priority range of the hosted port, from
`constance_port_std/src/lib.rs`: `0..InterruptPriority::max_value()` with
`InterruptPriority = i16`, i.e. the half-open interval `[0, 32767)`. -/
def MANAGED_PRIORITY_LO : Int := 0

/-- Upper (exclusive) bound of the hosted port's managed priority range. -/
def MANAGED_PRIORITY_HI : Int := 32767

/-- Modelled from the spec: the kernel-level set-priority operation
(`constance/src/kernel/interrupt.rs`, not under `src/`) rejects a priority
outside the accepted range with `BadParam` before invoking the port. -/
def set_interrupt_line_priority (st : SchedIntState) (num : Nat)
    (priority : Int) : Except IntLineError SchedIntState :=
  if MANAGED_PRIORITY_LO ≤ priority ∧ priority < MANAGED_PRIORITY_HI then
    port_set_interrupt_line_priority st num priority
  else .error .badParam

/-! ## Task services and contexts -/

/-- The task state machine of the kernel (`TaskSt` in
`constance/src/kernel/task.rs`). -/
inductive TaskSt
  | dormant
  | pendingActivation
  | ready
  | running
  | waiting
deriving DecidableEq, Repr

/-- The closed error taxonomy used by the task services. -/
inductive SvcError
  | badContext
  | badId
  | queueOverflow
  | badObjectState
deriving DecidableEq, Repr

/-- The per-task state used by the task services: the task status and the
park permit (a binary semaphore-like token consumed by `park`). -/
structure SimpleTask where
  st : TaskSt
  park_permit : Bool
deriving DecidableEq, Repr

/-- The kernel state seen by the task services: the CPU Lock flag, the task
pool, and the index of the current (running) task. -/
structure TaskKernel where
  cpu_lock : Bool
  tasks : List SimpleTask
  running : Nat
deriving DecidableEq, Repr

/-- Modelled from the spec: `Task::activate` (`constance/src/kernel/task.rs`,
not under `src/`): fails with `BadContext` when CPU Lock is active, `BadId`
when the task ID refers to no existing task, and `QueueOverflow` when the task
is not Dormant (no second activation request is queued); otherwise the task
becomes PendingActivation. -/
def activate_task (k : TaskKernel) (i : Nat) : Except SvcError TaskKernel :=
  if k.cpu_lock then .error .badContext
  else
    match k.tasks.get? i with
    | none => .error .badId
    | some t =>
      if t.st = TaskSt.dormant then
        .ok { k with tasks := k.tasks.set i { t with st := TaskSt.pendingActivation } }
      else .error .queueOverflow

/-- Modelled from the spec: `Kernel::park` (`constance/src/kernel/task.rs`, not
under `src/`): fails with `BadContext` when CPU Lock is active; otherwise
consumes the running task's park permit if it is set, or blocks the running
task (transitioning it to Waiting). -/
def park (k : TaskKernel) : Except SvcError TaskKernel :=
  if k.cpu_lock then .error .badContext
  else
    match k.tasks.get? k.running with
    | none => .error .badId
    | some t =>
      if t.park_permit then
        .ok { k with tasks := k.tasks.set k.running { t with park_permit := false } }
      else
        .ok { k with tasks := k.tasks.set k.running { t with st := TaskSt.waiting } }

/-- Modelled from the spec: `Task::unpark` (`constance/src/kernel/task.rs`, not
under `src/`): fails with `BadContext` when CPU Lock is active; otherwise wakes
the task if it is parked, or sets its park permit. -/
def unpark (k : TaskKernel) (i : Nat) : Except SvcError TaskKernel :=
  if k.cpu_lock then .error .badContext
  else
    match k.tasks.get? i with
    | none => .error .badId
    | some t =>
      if t.st = TaskSt.waiting then
        .ok { k with tasks := k.tasks.set i { t with st := TaskSt.ready } }
      else
        .ok { k with tasks := k.tasks.set i { t with park_permit := true } }

/-- Modelled from the spec: `Task::interrupt` (`constance/src/kernel/task.rs`,
not under `src/`): fails with `BadContext` when CPU Lock is active and with
`BadObjectState` when the task is not Waiting; otherwise the waiter is woken
administratively. -/
def interrupt_task (k : TaskKernel) (i : Nat) : Except SvcError TaskKernel :=
  if k.cpu_lock then .error .badContext
  else
    match k.tasks.get? i with
    | none => .error .badId
    | some t =>
      if t.st = TaskSt.waiting then
        .ok { k with tasks := k.tasks.set i { t with st := TaskSt.ready } }
      else .error .badObjectState

/-- Modelled from the spec: `release_cpu_lock`: clear the CPU Lock flag. -/
def release_cpu_lock (k : TaskKernel) : TaskKernel := { k with cpu_lock := false }

/-! ## System time and `set_time` -/

/-- Modelled from the spec: the kernel's time state (`set_time` lives in
`constance/src/kernel/timeout.rs`, not under `src/`).  Pending timeouts are
absolute 32-bit tick values; the user-facing system time is the tick count
plus an adjustable offset, all modulo `2^32`. -/
structure TimeState where
  tick : Nat
  sys_offset : Nat
  timeouts : List Nat
deriving DecidableEq, Repr

/-- The user-facing system time: tick count plus the adjustable offset. -/
def system_time (s : TimeState) : Nat := (s.tick + s.sys_offset) % TICK_MOD

/-- Modelled from the spec: `set_time` - reprogram the system time to `t` by
changing only the offset; the tick counter and the pending timeouts (absolute
ticks) are untouched, so "adding the delta to the wall is a no-op on their
scheduling". -/
def set_time (s : TimeState) (t : Nat) : TimeState :=
  { s with sys_offset := (t + TICK_MOD - s.tick % TICK_MOD) % TICK_MOD }

/-- A timeout with absolute expiration `e` has fired by tick `now` iff `e` is
not in `now`'s modular future (spec §4.1: "A is before B" iff
`(B − A) mod 2³²` lies within `[1, TIME_USER_HEADROOM]`). -/
def timeout_fired (now e : Nat) : Bool :=
  !(1 ≤ ticks_until now e && ticks_until now e ≤ TIME_USER_HEADROOM)

/-- Modelled from the spec: `sleep(d)` registers a timeout at the absolute
tick `now + d` (32-bit wrapping). -/
def sleep_timeout (s : TimeState) (d : Nat) : TimeState :=
  { s with timeouts := s.timeouts ++ [(s.tick + d) % TICK_MOD] }

/-! ## Semaphore definer and queue order (`src/src/r3/src/kernel/semaphore.rs`) -/

/-- Queue-order policy of a wait queue.  Modelled from the spec: the policy is
a per-object property with the two variants FIFO and TaskPriority (the r3
`QueueOrder` type itself is not under `src/`; `semaphore.rs` uses it). -/
inductive QueueOrder
  | fifo
  | taskPriority
deriving DecidableEq, Repr

/-- The fields of `SemaphoreDefiner` (`r3/src/kernel/semaphore.rs`). -/
structure SemaphoreDefiner where
  initial_value : Option Nat
  maximum_value : Option Nat
  queue_order : QueueOrder
deriving DecidableEq, Repr

/-- `SemaphoreDefiner::new()` from `r3/src/kernel/semaphore.rs`: no initial or
maximum value yet, and the queue order defaults to `QueueOrder::TaskPriority`. -/
def SemaphoreDefiner_new : SemaphoreDefiner :=
  { initial_value := none
    maximum_value := none
    queue_order := QueueOrder.taskPriority }

/-- Tail insertion into a wait queue, as performed by `WaitQueue::wait_inner`
(`constance/src/kernel/wait.rs`, `push_back`) - the FIFO policy. -/
def enqueue_fifo (q : List Nat) (wid : Nat) : List Nat := q ++ [wid]

/-- Modelled from the spec: insertion under the TaskPriority queue-order policy
(the queue-order-aware insertion of the r3 kernel's wait module is not under
`src/`; the `constance` snapshot's `wait_inner` only tail-inserts, with a TODO
for priority sorting).  The new wait is inserted before the first entry whose
task has strictly lower priority - a numerically greater priority value, with
`0` the highest priority - preserving FIFO order among waiters of equal
priority.  `prio` maps a wait record to its task's priority. -/
def enqueue_prio (prio : Nat → Nat) (q : List Nat) (wid : Nat) : List Nat :=
  match q with
  | [] => [wid]
  | w :: rest =>
    if prio wid < prio w then wid :: w :: rest
    else w :: enqueue_prio prio rest wid

/-- Insertion into a wait queue according to the object's queue-order policy. -/
def enqueue_by_order (o : QueueOrder) (prio : Nat → Nat) (q : List Nat)
    (wid : Nat) : List Nat :=
  match o with
  | .fifo => enqueue_fifo q wid
  | .taskPriority => enqueue_prio prio q wid

/-! ## Wait records and wait queues (`src/src/constance/src/kernel/wait.rs`) -/

/-- The wait-related part of a task control block: the task status and
`TaskWait::current_wait` (the id of the wait record describing the ongoing
Waiting state, `None` when the task is not Waiting). -/
structure TaskCbW where
  st : TaskSt
  current_wait : Option Nat
deriving DecidableEq, Repr

/-- The kernel state relevant to the wait subsystem.  Wait records live on the
waiting tasks' stacks; they are identified here by numeric ids.  `wait_task`
is the `Wait::task` field (the waiting task of each wait record), and each
entry of `queues` is one wait queue's `waits` list (front first). -/
structure WaitSt where
  tasks : List TaskCbW
  wait_task : Nat → Nat
  queues : List (List Nat)

/-- The task control block at index `tid` (out-of-range ids read as a dormant
task with no wait). -/
def task_at (s : WaitSt) (tid : Nat) : TaskCbW :=
  s.tasks.getD tid ⟨TaskSt.dormant, none⟩

/-- The wait queue with id `qid` (out-of-range ids read as empty). -/
def queue_at (s : WaitSt) (qid : Nat) : List Nat := s.queues.getD qid []

/-- The number of wait-queue entries referring to wait record `wid`, summed
over every wait queue ("linked in exactly one wait queue" is
`linked_count s wid = 1`). -/
def linked_count (s : WaitSt) (wid : Nat) : Nat :=
  (s.queues.map (fun q => q.count wid)).sum

/-- `WaitQueue::wait_inner` from `constance/src/kernel/wait.rs` (up to the
suspension point): insert a fresh wait record `wid` for the running task `tid`
at the back of wait queue `qid` (`push_back`; the snapshot supports only FIFO
insertion), set `task.wait.current_wait`, and transition the task to Waiting
(`task::wait_until_woken_up`). -/
def wait_inner (s : WaitSt) (qid wid tid : Nat) : WaitSt :=
  { tasks := s.tasks.set tid ⟨TaskSt.waiting, some wid⟩
    wait_task := fun w => if w = wid then tid else s.wait_task w
    queues := s.queues.set qid (queue_at s qid ++ [wid]) }

/-- `complete_wait` from `constance/src/kernel/wait.rs`: clear
`TaskWait::current_wait` of the waiting task and make it Ready
(`task::make_ready`).  The caller removes the wait record from its queue
before calling this. -/
def complete_wait (s : WaitSt) (wid : Nat) : WaitSt :=
  { s with tasks := s.tasks.set (s.wait_task wid) ⟨TaskSt.ready, none⟩ }

/-- Removal of wait record `wid` from wait queue `qid` (the intrusive-list
unlink; under the queue invariants `wid` occurs in the queue at most once). -/
def remove_from_queue (s : WaitSt) (qid wid : Nat) : WaitSt :=
  { s with queues := s.queues.set qid ((queue_at s qid).erase wid) }

/-- `WaitQueue::wake_up_one` from `constance/src/kernel/wait.rs`: pop the
first wait record off the queue (if any) and complete it. -/
def wake_up_one (s : WaitSt) (qid : Nat) : WaitSt :=
  match queue_at s qid with
  | [] => s
  | wid :: _ => complete_wait (remove_from_queue s qid wid) wid

/-- The loop of `WaitQueue::wake_up_all`: it calls `wake_up_one` until the
queue is exhausted; every successful call pops exactly one record, so the loop
runs at most once per record initially in the queue. -/
def wake_up_all_aux (qid : Nat) : List Nat → WaitSt → WaitSt
  | [], s => s
  | _ :: rest, s => wake_up_all_aux qid rest (wake_up_one s qid)

/-- `WaitQueue::wake_up_all` from `constance/src/kernel/wait.rs`. -/
def wake_up_all (s : WaitSt) (qid : Nat) : WaitSt :=
  wake_up_all_aux qid (queue_at s qid) s

/-- The loop of `WaitQueue::wake_up_all_conditional`: walk the queue in order
(the successor is captured before a possible removal); every wait whose payload
satisfies the predicate is unlinked from the queue and completed. -/
def wake_up_all_cond_aux (cond : Nat → Bool) (qid : Nat) :
    List Nat → WaitSt → WaitSt
  | [], s => s
  | wid :: rest, s =>
    if cond wid then
      wake_up_all_cond_aux cond qid rest
        (complete_wait (remove_from_queue s qid wid) wid)
    else
      wake_up_all_cond_aux cond qid rest s

/-- `WaitQueue::wake_up_all_conditional` from `constance/src/kernel/wait.rs`. -/
def wake_up_all_cond (s : WaitSt) (qid : Nat) (cond : Nat → Bool) : WaitSt :=
  wake_up_all_cond_aux cond qid (queue_at s qid) s

/-- Well-formedness of the wait-subsystem state (`wait.rs` invariants):
a task with `current_wait` set is Waiting, is the task of that wait record,
and the record is linked in exactly one wait queue; a Waiting task has
`current_wait` set; and every linked wait record's task points back at it. -/
structure WaitWF (s : WaitSt) : Prop where
  cw_waiting : ∀ tid wid, tid < s.tasks.length →
    (task_at s tid).current_wait = some wid →
    (task_at s tid).st = TaskSt.waiting ∧ s.wait_task wid = tid ∧
      linked_count s wid = 1
  waiting_cw : ∀ tid, tid < s.tasks.length →
    (task_at s tid).st = TaskSt.waiting →
    (task_at s tid).current_wait ≠ none
  linked_back : ∀ wid, 0 < linked_count s wid →
    s.wait_task wid < s.tasks.length ∧
      (task_at s (s.wait_task wid)).current_wait = some wid

/-- A concrete wait-subsystem state used to exercise the invariant theorems:
one running task, one empty wait queue. -/
def exampleWaitSt : WaitSt := ⟨[⟨TaskSt.running, none⟩], fun _ => 0, [[]]⟩

/-! ## Theorems -/

/-- Preservation of `TimerInv` by every timer operation (helper for the claim
theorems below). -/
theorem TimerInv_applyOp (op : TimerOp) (now : Nat) (t : TimerCb)
    (h : TimerInv t) : TimerInv (applyTimerOp op now t) := by
  obtain ⟨h1, h2⟩ := h
  cases op with
  | init ia =>
    simp only [applyTimerOp, init_timer]
    split
    · split
      · exact ⟨fun _ => rfl, by simp [insert_timeout]⟩
      · rename_i hb
        push_neg at hb
        exact ⟨fun _ => rfl, fun _ _ => hb⟩
    · exact ⟨h1, h2⟩
  | start =>
    simp only [applyTimerOp, start_timer]
    split
    · exact ⟨h1, h2⟩
    · split
      · exact ⟨fun _ => rfl, by simp [insert_timeout, set_expiration_after]⟩
      · rename_i hb
        push_neg at hb
        exact ⟨fun _ => rfl, fun _ _ => hb⟩
  | stop =>
    simp only [applyTimerOp, stop_timer]
    split
    · exact ⟨by simp [set_at_raw, remove_timeout], by simp⟩
    · exact ⟨by simp_all, by simp⟩
  | setDelay d =>
    simp only [applyTimerOp, set_timer_delay]
    split
    · rename_i hcase
      refine ⟨fun _ => ?_, fun _ hl => ?_⟩
      · split <;>
          simp [insert_timeout, set_expiration_after, remove_timeout, hcase.1]
      · simp [insert_timeout] at hl
    · rename_i hcase
      push_neg at hcase
      refine ⟨fun hl => ?_, fun ha hl => ?_⟩
      · split at hl <;> simp_all [remove_timeout, set_at_raw]
      · split at ha <;> simp_all [remove_timeout, set_at_raw]
  | setPeriod p =>
    exact ⟨h1, h2⟩
  | expire =>
    simp only [applyTimerOp, expire_timer]
    split
    · rename_i hl
      simp only [timer_timeout_handler]
      split
      · refine ⟨?_, ?_⟩ <;> simp [set_at_raw, remove_timeout, h1 hl]
      · refine ⟨?_, ?_⟩ <;>
          simp [insert_timeout, adjust_expiration, remove_timeout, h1 hl]
    · exact ⟨h1, h2⟩

/-- Postconditions of `set_timer_delay` (helper): the result is linked iff the
timer is Active and the new delay is finite; an unlinked result stores the raw
delay; the Active state is untouched. -/
theorem set_timer_delay_post (now delay : Nat) (t : TimerCb) :
    ((set_timer_delay now delay t).linked = true ↔
      (t.active = true ∧ delay ≠ BAD_DURATION32)) ∧
    ((set_timer_delay now delay t).linked = false →
      (set_timer_delay now delay t).at_raw = delay) ∧
    (set_timer_delay now delay t).active = t.active := by
  simp only [set_timer_delay]
  by_cases hA : t.active = true <;> by_cases hB : delay = BAD_DURATION32 <;>
    by_cases hL : t.linked = true <;>
      simp_all [insert_timeout, set_expiration_after, remove_timeout, set_at_raw]

/-- C3: when an Active timer's timeout expires (`timer_timeout_handler`, entered
with the timeout already unlinked by the timeout set), a finite period advances
the absolute expiration by the period - `expiration += period`, not
`now + period` (the handler never reads the current time) - and re-links the
timeout; an infinite period leaves the timer Active, the timeout unlinked, and
the infinity sentinel stored; and in both cases the application callback is
invoked only after CPU Lock has been released, with CPU Lock reacquired when
the callback returns. -/
theorem timer_timeout_handler_spec (t : TimerCb)
    (hact : t.active = true) (hnl : t.linked = false) :
    (t.period ≠ BAD_DURATION32 →
      ((timer_timeout_handler t).timer.at_raw = (t.at_raw + t.period) % TICK_MOD ∧
       (timer_timeout_handler t).timer.linked = true ∧
       (timer_timeout_handler t).timer.active = true)) ∧
    (t.period = BAD_DURATION32 →
      ((timer_timeout_handler t).timer.active = true ∧
       (timer_timeout_handler t).timer.linked = false ∧
       (timer_timeout_handler t).timer.at_raw = BAD_DURATION32)) ∧
    (timer_timeout_handler t).cpu_lock_at_callback = false ∧
    (timer_timeout_handler t).cpu_lock_after = true := by
  simp only [timer_timeout_handler]
  by_cases hp : t.period = BAD_DURATION32 <;>
    simp_all [set_at_raw, insert_timeout, adjust_expiration]

/-- Witness for C3: a periodic timer with expiration 100 and period 40
re-arms at 140, and one with the sentinel period stays unlinked. -/
theorem timer_timeout_handler_spec_witness :
    (timer_timeout_handler ⟨false, 100, true, 40⟩).timer.at_raw = 140 ∧
    (timer_timeout_handler ⟨false, 100, true, 40⟩).timer.linked = true ∧
    (timer_timeout_handler ⟨false, 100, true, BAD_DURATION32⟩).timer.linked = false ∧
    (timer_timeout_handler ⟨false, 100, true, 40⟩).cpu_lock_at_callback = false := by
  have h1 := timer_timeout_handler_spec ⟨false, 100, true, 40⟩ rfl rfl
  have h2 := timer_timeout_handler_spec ⟨false, 100, true, BAD_DURATION32⟩ rfl rfl
  have hne : (⟨false, 100, true, 40⟩ : TimerCb).period ≠ BAD_DURATION32 := by decide
  refine ⟨?_, (h1.1 hne).2.1, (h2.2.1 rfl).2.1, h1.2.2.1⟩
  have := (h1.1 hne).1
  simpa [TICK_MOD] using this

/-- C6: the timeout object of a timer is linked iff the timer is Active and its
delay is finite; this representation invariant is preserved by every timer
operation (including boot-time init and timeout expiration).  Whenever the
timeout ends up unlinked after `set_timer_delay`, the delay value is stored in
(and hence retrievable from) the record's raw tick field.  `set_timer_delay`
re-links exactly when the timer is Active and the new delay is finite, so
setting a linked Active timer's delay to infinity always unlinks it, never
leaving a linked sentinel. -/
theorem timer_link_invariant_spec :
    (∀ (op : TimerOp) (now : Nat) (t : TimerCb),
       TimerInv t → TimerInv (applyTimerOp op now t)) ∧
    (∀ (now delay : Nat) (t : TimerCb),
       ((set_timer_delay now delay t).linked = true ↔
         (t.active = true ∧ delay ≠ BAD_DURATION32)) ∧
       ((set_timer_delay now delay t).linked = false →
         (set_timer_delay now delay t).at_raw = delay) ∧
       (set_timer_delay now delay t).active = t.active) ∧
    (∀ (now : Nat) (t : TimerCb), t.active = true → t.linked = true →
       (set_timer_delay now BAD_DURATION32 t).linked = false ∧
       (set_timer_delay now BAD_DURATION32 t).at_raw = BAD_DURATION32) := by
  refine ⟨TimerInv_applyOp, set_timer_delay_post, fun now t _ _ => ?_⟩
  obtain ⟨hiff, hraw, -⟩ := set_timer_delay_post now BAD_DURATION32 t
  have hlf : (set_timer_delay now BAD_DURATION32 t).linked = false := by
    cases hl : (set_timer_delay now BAD_DURATION32 t).linked
    · rfl
    · exact absurd ((hiff.mp hl).2) (by simp)
  exact ⟨hlf, hraw hlf⟩

/-- Witness for C6: the invariant survives starting a dormant timer, and
setting a linked Active timer's delay to infinity unlinks it. -/
theorem timer_link_invariant_spec_witness :
    TimerInv (applyTimerOp TimerOp.start 0 ⟨false, 10, false, 5⟩) ∧
    (set_timer_delay 3 BAD_DURATION32 ⟨true, 100, true, 5⟩).linked = false ∧
    (set_timer_delay 3 BAD_DURATION32 ⟨true, 100, true, 5⟩).at_raw =
      BAD_DURATION32 := by
  refine ⟨timer_link_invariant_spec.1 TimerOp.start 0 ⟨false, 10, false, 5⟩
    (by simp [TimerInv]), ?_, ?_⟩
  · exact (timer_link_invariant_spec.2.2 3 ⟨true, 100, true, 5⟩ rfl rfl).1
  · exact (timer_link_invariant_spec.2.2 3 ⟨true, 100, true, 5⟩ rfl rfl).2

/-- C7: for an Active timer with a linked timeout, `stop` captures the
remaining time until expiration saturated to a non-negative value, unlinks the
timeout and stores the captured value; a following `start` (with no intervening
`set_delay`) re-arms the timeout at the current time plus the captured value
and re-links it - the remaining delay is preserved up to the clock progression
between the two calls. -/
theorem stop_then_start_preserves_delay (t : TimerCb) (now1 now2 : Nat)
    (_hact : t.active = true) (hlink : t.linked = true) :
    (stop_timer now1 t).at_raw = saturating_duration_until_timeout now1 t ∧
    (stop_timer now1 t).linked = false ∧
    (stop_timer now1 t).active = false ∧
    (start_timer now2 (stop_timer now1 t)).at_raw =
      (now2 + saturating_duration_until_timeout now1 t) % TICK_MOD ∧
    (start_timer now2 (stop_timer now1 t)).linked = true ∧
    (start_timer now2 (stop_timer now1 t)).active = true := by
  have hcap : saturating_duration_until_timeout now1 t ≤ TIME_USER_HEADROOM := by
    simp only [saturating_duration_until_timeout]
    split <;> omega
  have hne : saturating_duration_until_timeout now1 t ≠ BAD_DURATION32 := by
    simp only [BAD_DURATION32, TICK_MOD, TIME_USER_HEADROOM] at *
    omega
  simp only [stop_timer, start_timer, hlink, if_pos, set_at_raw, remove_timeout]
  simp [hne, insert_timeout, set_expiration_after]

/-- Witness for C7: stopping a timer due at tick 500 at time 100 captures a
remaining delay of 400; restarting at time 130 re-arms it at tick 530. -/
theorem stop_then_start_preserves_delay_witness :
    (stop_timer 100 ⟨true, 500, true, 7⟩).at_raw =
      saturating_duration_until_timeout 100 ⟨true, 500, true, 7⟩ ∧
    (stop_timer 100 ⟨true, 500, true, 7⟩).linked = false ∧
    (stop_timer 100 ⟨true, 500, true, 7⟩).active = false ∧
    (start_timer 130 (stop_timer 100 ⟨true, 500, true, 7⟩)).at_raw =
      (130 + saturating_duration_until_timeout 100 ⟨true, 500, true, 7⟩) %
        TICK_MOD ∧
    (start_timer 130 (stop_timer 100 ⟨true, 500, true, 7⟩)).linked = true ∧
    (start_timer 130 (stop_timer 100 ⟨true, 500, true, 7⟩)).active = true :=
  stop_then_start_preserves_delay ⟨true, 500, true, 7⟩ 100 130 rfl rfl

/-- C9: on the hosted port (1024 interrupt lines), each of the six per-line
operations fails with `BadParam` for a line number outside the configured
range, and set-priority additionally fails with `BadParam` for a priority
outside the accepted range `[0, 32767)`.  An erroneous call returns only the
error - no updated state - so the interrupt-line state is unchanged. -/
theorem interrupt_line_ops_bad_param (st : SchedIntState) (num : Nat)
    (priority : Int) :
    (NUM_INTERRUPT_LINES ≤ num →
      port_set_interrupt_line_priority st num priority = .error .badParam ∧
      port_enable_interrupt_line st num = .error .badParam ∧
      port_disable_interrupt_line st num = .error .badParam ∧
      port_pend_interrupt_line st num = .error .badParam ∧
      port_clear_interrupt_line st num = .error .badParam ∧
      port_is_interrupt_line_pending st num = .error .badParam) ∧
    (¬(MANAGED_PRIORITY_LO ≤ priority ∧ priority < MANAGED_PRIORITY_HI) →
      set_interrupt_line_priority st num priority = .error .badParam) := by
  constructor
  · intro h
    have hn : ¬ num < NUM_INTERRUPT_LINES := by omega
    refine ⟨?_, ?_, ?_, ?_, ?_, ?_⟩ <;>
      simp [port_set_interrupt_line_priority, port_enable_interrupt_line,
        port_disable_interrupt_line, port_pend_interrupt_line,
        port_clear_interrupt_line, port_is_interrupt_line_pending,
        update_line, is_line_pended, hn]
  · intro h
    simp [set_interrupt_line_priority, h]

/-- Witness for C9: line 1024 is rejected, as is priority 40000 on line 3. -/
theorem interrupt_line_ops_bad_param_witness :
    port_set_interrupt_line_priority ⟨fun _ => ⟨0, false, false⟩⟩ 1024 5 =
      .error .badParam ∧
    port_pend_interrupt_line ⟨fun _ => ⟨0, false, false⟩⟩ 1024 =
      .error .badParam ∧
    set_interrupt_line_priority ⟨fun _ => ⟨0, false, false⟩⟩ 3 40000 =
      .error .badParam := by
  have h1024 :=
    interrupt_line_ops_bad_param ⟨fun _ => ⟨0, false, false⟩⟩ 1024 5
  have h3 := interrupt_line_ops_bad_param ⟨fun _ => ⟨0, false, false⟩⟩ 3 40000
  exact ⟨(h1024.1 (by decide)).1, (h1024.1 (by decide)).2.2.2.1,
    h3.2 (by decide)⟩

/-- C5: with CPU Lock held, `park`, `activate_task`, `unpark` and task
interrupt all fail with `BadContext` and return no updated state (the kernel
state is unchanged); after `release_cpu_lock`, `park` succeeds and blocks the
running task (transitions it to Waiting) when no park permit is pending,
instead of returning an error. -/
theorem cpu_lock_bad_context (k : TaskKernel) (i : Nat)
    (h : k.cpu_lock = true) :
    (park k = .error .badContext ∧
     activate_task k i = .error .badContext ∧
     unpark k i = .error .badContext ∧
     interrupt_task k i = .error .badContext) ∧
    ((release_cpu_lock k).cpu_lock = false ∧
     ∀ t, k.tasks[k.running]? = some t → t.park_permit = false →
       park (release_cpu_lock k) =
         .ok { k with cpu_lock := false,
                      tasks := k.tasks.set k.running
                        { t with st := TaskSt.waiting } }) := by
  refine ⟨by simp [park, activate_task, unpark, interrupt_task, h], rfl, ?_⟩
  intro t ht hp
  simp [park, release_cpu_lock, ht, hp]

/-- Witness for C5: a one-task kernel under CPU Lock rejects `park` and
`activate_task`; after releasing the lock, `park` blocks the task. -/
theorem cpu_lock_bad_context_witness :
    park ⟨true, [⟨TaskSt.running, false⟩], 0⟩ = .error .badContext ∧
    activate_task ⟨true, [⟨TaskSt.running, false⟩], 0⟩ 0 = .error .badContext ∧
    unpark ⟨true, [⟨TaskSt.running, false⟩], 0⟩ 0 = .error .badContext ∧
    interrupt_task ⟨true, [⟨TaskSt.running, false⟩], 0⟩ 0 =
      .error .badContext ∧
    park (release_cpu_lock ⟨true, [⟨TaskSt.running, false⟩], 0⟩) =
      .ok ⟨false, [⟨TaskSt.waiting, false⟩], 0⟩ := by
  have h := cpu_lock_bad_context ⟨true, [⟨TaskSt.running, false⟩], 0⟩ 0 rfl
  refine ⟨h.1.1, h.1.2.1, h.1.2.2.1, h.1.2.2.2, ?_⟩
  have h2 := h.2.2 ⟨TaskSt.running, false⟩ rfl rfl
  simpa using h2

/-- C8: with CPU Lock not held, `activate_task` on a task ID that refers to no
existing task fails with `BadId`, and on a task that is not Dormant (e.g.
already Running) fails with `QueueOverflow`; in both cases only the error is
returned - no updated state, so no second activation request is queued. -/
theorem activate_task_errors (k : TaskKernel) (i : Nat)
    (h : k.cpu_lock = false) :
    (k.tasks[i]? = none → activate_task k i = .error .badId) ∧
    (∀ t, k.tasks[i]? = some t → t.st ≠ TaskSt.dormant →
      activate_task k i = .error .queueOverflow) := by
  constructor
  · intro hget
    simp [activate_task, h, hget]
  · intro t hget hst
    simp [activate_task, h, hget, hst]

/-- Witness for C8: task ID 42 does not exist (`BadId`); task 0 is Running
(`QueueOverflow`). -/
theorem activate_task_errors_witness :
    activate_task ⟨false, [⟨TaskSt.running, false⟩], 0⟩ 42 = .error .badId ∧
    activate_task ⟨false, [⟨TaskSt.running, false⟩], 0⟩ 0 =
      .error .queueOverflow := by
  have h := activate_task_errors ⟨false, [⟨TaskSt.running, false⟩], 0⟩ 42 rfl
  have h0 := activate_task_errors ⟨false, [⟨TaskSt.running, false⟩], 0⟩ 0 rfl
  exact ⟨h.1 rfl, h0.2 ⟨TaskSt.running, false⟩ rfl (by decide)⟩

/-- C4 (counterexample): the claim places the wake-ups at about 400 ms and
600 ms *of wall time*.  In the test scenario (`time_set_event.rs`) the sleeps
of 300 ms and 100 ms are registered at wall tick 0 and `set_time(300 ms)` only
changes the system-time offset, so the wake-ups happen at wall ticks 300 and
100 (one tick = 1 ms here).  Neither wall time lies in the test suite's own
tolerance windows for "about 400 ms" (`350..500`) or "about 600 ms"
(`550..700`); those windows are met by the *system-time* readings instead. -/
theorem set_time_wall_time_counterexample :
    (set_time (sleep_timeout (sleep_timeout (set_time ⟨0, 0, []⟩ 0) 300) 100)
        300).timeouts = [300, 100] ∧
    (set_time (sleep_timeout (sleep_timeout (set_time ⟨0, 0, []⟩ 0) 300) 100)
        300).tick = 0 ∧
    (timeout_fired 99 100 = false ∧ timeout_fired 100 100 = true ∧
     ¬(350 ≤ (100 : Nat) ∧ (100 : Nat) < 500) ∧
     ¬(550 ≤ (100 : Nat) ∧ (100 : Nat) < 700)) ∧
    (timeout_fired 299 300 = false ∧ timeout_fired 300 300 = true ∧
     ¬(350 ≤ (300 : Nat) ∧ (300 : Nat) < 500) ∧
     ¬(550 ≤ (300 : Nat) ∧ (300 : Nat) < 700)) := by
  decide

/-- C4 (amended): `set_time` changes only the system-time offset: the tick
counter and the pending timeouts (absolute ticks) are untouched, so the
fired/not-yet-fired partition and every pending timeout's remaining wall-clock
interval are preserved, and the reprogrammed system time reads back.  In the
literal scenario - sleeps of 300 ms and 100 ms registered at time 0, then
`set_time(300 ms)` - the wake-ups stay at wall ticks 300 and 100 (the 100 ms
sleeper first), where the kernel clock reads about 600 ms and 400 ms of
*system time* respectively. -/
theorem set_time_preserves_timeouts :
    (∀ (s : TimeState) (t : Nat),
      (set_time s t).tick = s.tick ∧
      (set_time s t).timeouts = s.timeouts ∧
      (∀ e, timeout_fired (set_time s t).tick e = timeout_fired s.tick e) ∧
      (∀ e, ticks_until (set_time s t).tick e = ticks_until s.tick e) ∧
      (t < TICK_MOD → system_time (set_time s t) = t)) ∧
    ((set_time (sleep_timeout (sleep_timeout (set_time ⟨0, 0, []⟩ 0) 300) 100)
        300).timeouts = [300, 100] ∧
     timeout_fired 100 100 = true ∧ timeout_fired 300 300 = true ∧
     timeout_fired 100 300 = false ∧
     system_time ⟨100,
       (set_time (sleep_timeout (sleep_timeout (set_time ⟨0, 0, []⟩ 0) 300)
         100) 300).sys_offset, []⟩ = 400 ∧
     system_time ⟨300,
       (set_time (sleep_timeout (sleep_timeout (set_time ⟨0, 0, []⟩ 0) 300)
         100) 300).sys_offset, []⟩ = 600 ∧
     (350 ≤ (400 : Nat) ∧ (400 : Nat) < 500) ∧
     (550 ≤ (600 : Nat) ∧ (600 : Nat) < 700)) := by
  constructor
  · intro s t
    refine ⟨rfl, rfl, fun e => rfl, fun e => rfl, fun ht => ?_⟩
    have hM : TICK_MOD = 4294967296 := rfl
    simp only [system_time, set_time, hM] at *
    omega
  · decide

/-- Witness for C4 (amended): the system time reads back after
`set_time ⟨5, 7, [11]⟩ 300`. -/
theorem set_time_preserves_timeouts_witness :
    system_time (set_time ⟨5, 7, [11]⟩ 300) = 300 ∧
    (set_time ⟨5, 7, [11]⟩ 300).timeouts = [11] := by
  have h := set_time_preserves_timeouts.1 ⟨5, 7, [11]⟩ 300
  exact ⟨h.2.2.2.2 (by decide), h.2.1⟩

theorem pos_of_is_power_of_two {n : Nat} (h : is_power_of_two n = true) :
    0 < n := by
  unfold is_power_of_two at h
  simp only [Bool.and_eq_true, decide_eq_true_eq, beq_iff_eq] at h
  omega

theorem round_up_ge (l a : Nat) (ha : 0 < a) : l ≤ (l + a - 1) / a * a := by
  have hd := Nat.div_add_mod (l + a - 1) a
  have hm : (l + a - 1) % a < a := Nat.mod_lt _ ha
  rw [Nat.mul_comm]
  generalize hX : a * ((l + a - 1) / a) = X at hd
  omega

theorem round_up_mod (l a : Nat) : ((l + a - 1) / a * a) % a = 0 :=
  Nat.mul_mod_left _ _

theorem cfg_step_WF (align size : Nat) (cfg : CfgBuilderHunks)
    (ha : 0 < align) (hwf : CfgHunksWF cfg) :
    CfgHunksWF (cfg_new_hunk align size cfg) := by
  obtain ⟨hp, hlen, hmod, halign, hpos⟩ := hwf
  have hge : cfg.hunk_pool_len ≤ (cfg.hunk_pool_len + align - 1) / align * align :=
    round_up_ge _ _ ha
  refine ⟨?_, ?_, ?_, ?_, ?_⟩
  · simp only [cfg_new_hunk]
    rw [List.pairwise_append]
    refine ⟨hp, List.pairwise_singleton _ _, ?_⟩
    intro a hamem b hbmem
    simp only [List.mem_singleton] at hbmem
    subst hbmem
    exact le_trans (hlen a hamem) hge
  · intro h hmem
    simp only [cfg_new_hunk, List.mem_append, List.mem_singleton] at hmem
    rcases hmem with hmem | hmem
    · exact le_trans (hlen h hmem) (le_trans hge (Nat.le_add_right _ _))
    · subst hmem
      exact le_refl _
  · intro h hmem
    simp only [cfg_new_hunk, List.mem_append, List.mem_singleton] at hmem
    rcases hmem with hmem | hmem
    · exact hmod h hmem
    · subst hmem
      exact round_up_mod _ _
  · intro h hmem
    simp only [cfg_new_hunk, List.mem_append, List.mem_singleton] at hmem
    rcases hmem with hmem | hmem
    · refine le_trans (halign h hmem) ?_
      simp only [cfg_new_hunk]
      split <;> omega
    · subst hmem
      simp only [cfg_new_hunk]
      split <;> omega
  · simp only [cfg_new_hunk]
    split <;> omega

theorem zero_array_step (ea es l ra : Nat) (cfg cfg1 : CfgBuilderHunks)
    (h : cfg_new_hunk_zero_array ea es l ra cfg = some cfg1) :
    cfg1 = cfg_new_hunk (if ea > ra then ea else ra) (es * l) cfg ∧
    is_power_of_two ra = true := by
  unfold cfg_new_hunk_zero_array at h
  split at h
  · exact absurd h (by simp)
  · rename_i hra
    push_neg at hra
    simp only [Option.some_inj] at h
    exact ⟨h.symm, hra⟩

theorem applyHunkDef_WF (cfg cfg1 : CfgBuilderHunks) (d : HunkDef)
    (hd : HunkDefWF d) (hwf : CfgHunksWF cfg)
    (h : applyHunkDef cfg d = some cfg1) : CfgHunksWF cfg1 := by
  cases d with
  | typed align size =>
    simp only [applyHunkDef, Option.some_inj] at h
    subst h
    exact cfg_step_WF align size cfg (pos_of_is_power_of_two hd) hwf
  | zeroArray ea es l ra =>
    obtain ⟨heq, hra⟩ := zero_array_step ea es l ra cfg cfg1 h
    subst heq
    refine cfg_step_WF _ _ cfg ?_ hwf
    have h1 := pos_of_is_power_of_two (hd : is_power_of_two ea = true)
    have h2 := pos_of_is_power_of_two hra
    split <;> omega

theorem buildHunksFrom_WF (ds : List HunkDef) :
    ∀ (cfg cfg1 : CfgBuilderHunks), (∀ d ∈ ds, HunkDefWF d) →
      CfgHunksWF cfg → buildHunksFrom cfg ds = some cfg1 →
      CfgHunksWF cfg1 := by
  induction ds with
  | nil =>
    intro cfg cfg1 _ hwf h
    simp only [buildHunksFrom, Option.some_inj] at h
    exact h ▸ hwf
  | cons d ds ih =>
    intro cfg cfg1 hds hwf h
    simp only [buildHunksFrom] at h
    cases ha : applyHunkDef cfg d with
    | none => rw [ha] at h; exact absurd h (by simp)
    | some cfg2 =>
      rw [ha] at h
      exact ih cfg2 cfg1 (fun x hx => hds x (List.mem_cons_of_mem _ hx))
        (applyHunkDef_WF cfg cfg2 d (hds d (List.mem_cons_self _ _)) hwf ha) h

/-- C10: for every sequence of hunk definitions processed by the
configuration builder (assuming the Rust guarantee that every type's alignment
is a power of two), the resulting hunks occupy pairwise non-overlapping byte
ranges of the hunk pool, each hunk's starting offset is a multiple of its
required alignment (the type's alignment, or the larger explicitly requested
power-of-two alignment), and the final hunk pool alignment is at least the
maximum alignment of all defined hunks. -/
theorem hunk_layout (ds : List HunkDef) (cfg : CfgBuilderHunks)
    (hds : ∀ d ∈ ds, HunkDefWF d) (h : buildHunks ds = some cfg) :
    List.Pairwise HunkDisjoint cfg.hunks ∧
    (∀ hk ∈ cfg.hunks, hk.offset % hk.align = 0) ∧
    (∀ hk ∈ cfg.hunks, hk.align ≤ cfg.hunk_pool_align) := by
  have hwf0 : CfgHunksWF CfgBuilder_new :=
    ⟨List.Pairwise.nil, by simp [CfgBuilder_new], by simp [CfgBuilder_new],
      by simp [CfgBuilder_new], le_refl _⟩
  obtain ⟨hp, hlen, hmod, halign, hpos⟩ :=
    buildHunksFrom_WF ds CfgBuilder_new cfg hds hwf0 h
  exact ⟨hp.imp (fun hab => Or.inl hab), hmod, halign⟩


/-- Witness for C10: a typed hunk (align 4, size 6) followed by a
zero-initialized array hunk (element align 2, element size 3, length 5,
requested align 8) yields hunks at offsets 0 and 8 with pool alignment 8. -/
theorem hunk_layout_witness :
    List.Pairwise HunkDisjoint
      (⟨[⟨0, 6, 4⟩, ⟨8, 15, 8⟩], 23, 8⟩ : CfgBuilderHunks).hunks ∧
    (∀ hk ∈ (⟨[⟨0, 6, 4⟩, ⟨8, 15, 8⟩], 23, 8⟩ : CfgBuilderHunks).hunks,
      hk.offset % hk.align = 0) ∧
    (∀ hk ∈ (⟨[⟨0, 6, 4⟩, ⟨8, 15, 8⟩], 23, 8⟩ : CfgBuilderHunks).hunks,
      hk.align ≤ (⟨[⟨0, 6, 4⟩, ⟨8, 15, 8⟩], 23, 8⟩ :
        CfgBuilderHunks).hunk_pool_align) := by
  refine hunk_layout [.typed 4 6, .zeroArray 2 3 5 8] _ ?_ (by decide)
  intro d hd
  simp only [List.mem_cons, List.not_mem_nil, or_false] at hd
  rcases hd with rfl | rfl
  · exact (by decide : is_power_of_two 4 = true)
  · exact (by decide : is_power_of_two 2 = true)

theorem enqueue_prio_characterization (prio : Nat → Nat) (wid : Nat) :
    ∀ q : List Nat,
      enqueue_prio prio q wid =
        q.takeWhile (fun w => prio w ≤ prio wid) ++
          wid :: q.dropWhile (fun w => prio w ≤ prio wid) := by
  intro q
  induction q with
  | nil => rfl
  | cons w rest ih =>
    simp only [enqueue_prio, List.takeWhile_cons, List.dropWhile_cons]
    by_cases h : prio wid < prio w
    · have hb : ¬ prio w ≤ prio wid := by omega
      simp [h, hb]
    · have hb : prio w ≤ prio wid := by omega
      simp [h, hb, ih]

/-- C1: a FIFO-policy wait queue appends the new wait record at the tail
(`wait_inner`'s `push_back`), while a TaskPriority-policy queue inserts it
before the first entry whose task has strictly lower priority (numerically
greater value), preserving FIFO order among waiters of equal priority: the
result is the maximal all-higher-or-equal-priority prefix, then the new
record, then the rest in unchanged order.  The default queue order of a
semaphore definer is TaskPriority, and under it a higher-priority waiter
that enqueues after a lower-priority waiter is placed ahead of it and is at
the head of the queue, hence served first by `wake_up_one`. -/
theorem wait_queue_insertion_policy :
    SemaphoreDefiner_new.queue_order = QueueOrder.taskPriority ∧
    (∀ (prio : Nat → Nat) (q : List Nat) (wid : Nat),
      enqueue_by_order QueueOrder.fifo prio q wid = q ++ [wid]) ∧
    (∀ (prio : Nat → Nat) (q : List Nat) (wid : Nat),
      enqueue_by_order QueueOrder.taskPriority prio q wid =
        q.takeWhile (fun w => prio w ≤ prio wid) ++
          wid :: q.dropWhile (fun w => prio w ≤ prio wid)) ∧
    (∀ (prio : Nat → Nat) (q : List Nat) (wid w : Nat),
      w ∈ q.takeWhile (fun w => prio w ≤ prio wid) → prio w ≤ prio wid) ∧
    (∀ (prio : Nat → Nat) (w1 w2 : Nat), prio w2 < prio w1 →
      enqueue_by_order QueueOrder.taskPriority prio
          (enqueue_by_order QueueOrder.taskPriority prio [] w1) w2 =
        [w2, w1] ∧
      (enqueue_by_order QueueOrder.taskPriority prio
          (enqueue_by_order QueueOrder.taskPriority prio [] w1) w2).head? =
        some w2) := by
  refine ⟨rfl, fun _ q wid => rfl, fun prio q wid => ?_, fun prio q wid w h => ?_, ?_⟩
  · exact enqueue_prio_characterization prio wid q
  · have := List.mem_takeWhile_imp h
    simpa using this
  · intro prio w1 w2 h
    constructor
    · simp [enqueue_by_order, enqueue_prio, h]
    · simp [enqueue_by_order, enqueue_prio, h]

/-- Witness for C1: with priorities given by the identity map, waiter 1
(priority 1) enqueued after waiter 5 (priority 5) under the TaskPriority
policy ends up at the head; under FIFO it is appended at the tail. -/
theorem wait_queue_insertion_policy_witness :
    enqueue_by_order QueueOrder.taskPriority id
        (enqueue_by_order QueueOrder.taskPriority id [] 5) 1 = [1, 5] ∧
    (enqueue_by_order QueueOrder.taskPriority id
        (enqueue_by_order QueueOrder.taskPriority id [] 5) 1).head? =
      some 1 ∧
    enqueue_by_order QueueOrder.fifo id [5] 1 = [5, 1] ∧
    SemaphoreDefiner_new.queue_order = QueueOrder.taskPriority := by
  have h := wait_queue_insertion_policy
  exact ⟨(h.2.2.2.2 id 5 1 (by decide)).1, (h.2.2.2.2 id 5 1 (by decide)).2,
    h.2.1 id [5] 1, h.1⟩

/-- `List.set` and `List.getD` (helper). -/
theorem list_getD_set {α} (l : List α) (i j : Nat) (a d : α) :
    (l.set i a).getD j d = if i = j ∧ j < l.length then a else l.getD j d := by
  induction l generalizing i j with
  | nil => simp
  | cons x xs ih =>
    cases i with
    | zero =>
      cases j with
      | zero => simp
      | succ j => simp [Nat.succ_lt_succ_iff]
    | succ i =>
      cases j with
      | zero => simp
      | succ j =>
        simp only [List.set_cons_succ, List.getD_cons_succ, ih,
          List.length_cons]
        by_cases h : i = j ∧ j < xs.length
        · rw [if_pos h, if_pos ⟨by omega, by omega⟩]
        · rw [if_neg h, if_neg (by omega)]

theorem list_map_sum_set (f : List Nat → Nat) :
    ∀ (qs : List (List Nat)) (i : Nat) (q' : List Nat), i < qs.length →
      ((qs.set i q').map f).sum + f (qs.getD i []) =
        (qs.map f).sum + f q' := by
  intro qs
  induction qs with
  | nil => intro i q' h; simp at h
  | cons q rest ih =>
    intro i q' h
    cases i with
    | zero => simp [Nat.add_comm, Nat.add_assoc, Nat.add_left_comm]
    | succ i =>
      simp only [List.set_cons_succ, List.map_cons, List.sum_cons,
        List.getD_cons_succ]
      have := ih i q' (by simpa using h)
      omega

theorem linked_count_set_queue (s : WaitSt) (qid : Nat) (q' : List Nat)
    (h : qid < s.queues.length) (w : Nat) :
    linked_count { s with queues := s.queues.set qid q' } w +
        (queue_at s qid).count w =
      linked_count s w + q'.count w :=
  list_map_sum_set (fun q => q.count w) s.queues qid q' h

theorem queue_at_mem (s : WaitSt) (qid : Nat) (h : qid < s.queues.length) :
    queue_at s qid ∈ s.queues := by
  unfold queue_at
  rw [List.getD_eq_getElem _ _ h]
  exact List.getElem_mem h

theorem linked_count_pos_of_mem (s : WaitSt) (qid wid : Nat)
    (hq : qid < s.queues.length) (hm : wid ∈ queue_at s qid) :
    0 < linked_count s wid := by
  have h1 : 0 < (queue_at s qid).count wid := List.count_pos_iff.mpr hm
  have h3 : (queue_at s qid).count wid ≤
      (s.queues.map (fun q => q.count wid)).sum :=
    List.single_le_sum (fun y _ => Nat.zero_le y) _
      (List.mem_map_of_mem _ (queue_at_mem s qid hq))
  unfold linked_count
  omega

theorem queue_at_lt_of_ne_nil (s : WaitSt) (qid : Nat)
    (h : queue_at s qid ≠ []) : qid < s.queues.length := by
  by_contra hc
  exact h (List.getD_eq_default _ _ (by omega))

-- the state after unlinking `wid` from queue `qid` and completing it
theorem wake_step_counts (s : WaitSt) (qid wid : Nat)
    (hq : qid < s.queues.length) (hm : wid ∈ queue_at s qid) :
    linked_count (complete_wait (remove_from_queue s qid wid) wid) wid =
      linked_count s wid - 1 ∧
    (∀ w, w ≠ wid →
      linked_count (complete_wait (remove_from_queue s qid wid) wid) w =
        linked_count s w) := by
  have hcw : ∀ w, linked_count (complete_wait (remove_from_queue s qid wid) wid) w =
      linked_count (remove_from_queue s qid wid) w := fun _ => rfl
  constructor
  · have h1 := linked_count_set_queue s qid ((queue_at s qid).erase wid) hq wid
    have h2 : ((queue_at s qid).erase wid).count wid =
        (queue_at s qid).count wid - 1 := List.count_erase_self wid _
    have h3 : 0 < (queue_at s qid).count wid := List.count_pos_iff.mpr hm
    rw [hcw]
    unfold remove_from_queue
    omega
  · intro w hw
    have h1 := linked_count_set_queue s qid ((queue_at s qid).erase wid) hq w
    have h2 : ((queue_at s qid).erase wid).count w =
        (queue_at s qid).count w := List.count_erase_of_ne hw _
    rw [hcw]
    unfold remove_from_queue
    omega

theorem wake_step_task_at (s : WaitSt) (qid wid tid : Nat) :
    task_at (complete_wait (remove_from_queue s qid wid) wid) tid =
      if s.wait_task wid = tid ∧ tid < s.tasks.length then
        ⟨TaskSt.ready, none⟩
      else task_at s tid := by
  unfold task_at complete_wait remove_from_queue
  simp only []
  exact list_getD_set s.tasks (s.wait_task wid) tid _ _

theorem wake_step_spec (s : WaitSt) (qid wid : Nat)
    (hq : qid < s.queues.length) (hm : wid ∈ queue_at s qid)
    (hwf : WaitWF s) :
    WaitWF (complete_wait (remove_from_queue s qid wid) wid) ∧
    task_at (complete_wait (remove_from_queue s qid wid) wid)
        (s.wait_task wid) = ⟨TaskSt.ready, none⟩ ∧
    linked_count (complete_wait (remove_from_queue s qid wid) wid) wid = 0 := by
  have hpos : 0 < linked_count s wid := linked_count_pos_of_mem s qid wid hq hm
  obtain ⟨htid_lt, hcw⟩ := hwf.linked_back wid hpos
  obtain ⟨hst, -, hcnt1⟩ := hwf.cw_waiting (s.wait_task wid) wid htid_lt hcw
  obtain ⟨hc_wid, hc_ne⟩ := wake_step_counts s qid wid hq hm
  have hlen : (complete_wait (remove_from_queue s qid wid) wid).tasks.length =
      s.tasks.length := by
    simp [complete_wait, remove_from_queue]
  have htask := wake_step_task_at s qid wid
  have hwt : (complete_wait (remove_from_queue s qid wid) wid).wait_task =
      s.wait_task := rfl
  have hready : task_at (complete_wait (remove_from_queue s qid wid) wid)
      (s.wait_task wid) = ⟨TaskSt.ready, none⟩ := by
    rw [htask, if_pos ⟨rfl, htid_lt⟩]
  have hzero : linked_count (complete_wait (remove_from_queue s qid wid) wid)
      wid = 0 := by omega
  refine ⟨⟨?_, ?_, ?_⟩, hready, hzero⟩
  · -- cw_waiting
    intro tid w h1 h2
    rw [hlen] at h1
    by_cases he : s.wait_task wid = tid ∧ tid < s.tasks.length
    · rw [htask tid, if_pos he] at h2
      exact absurd h2 (by simp)
    · rw [htask tid, if_neg he] at h2 ⊢
      obtain ⟨hw1, hw2, hw3⟩ := hwf.cw_waiting tid w h1 h2
      have hwne : w ≠ wid := by
        intro hww
        subst hww
        exact he ⟨hw2, h1⟩
      refine ⟨hw1, ?_, ?_⟩
      · rw [hwt]
        exact hw2
      · rw [hc_ne w hwne]
        exact hw3
  · -- waiting_cw
    intro tid h1 hstw
    rw [hlen] at h1
    by_cases he : s.wait_task wid = tid ∧ tid < s.tasks.length
    · rw [htask tid, if_pos he] at hstw
      exact absurd hstw (by simp)
    · rw [htask tid, if_neg he] at hstw ⊢
      exact hwf.waiting_cw tid h1 hstw
  · -- linked_back
    intro w hpos2
    have hwne : w ≠ wid := by
      intro hww
      subst hww
      omega
    rw [hc_ne w hwne] at hpos2
    obtain ⟨hlt, hcw2⟩ := hwf.linked_back w hpos2
    rw [hwt, hlen]
    refine ⟨hlt, ?_⟩
    by_cases heq : s.wait_task wid = s.wait_task w
    · rw [← heq, hcw] at hcw2
      exact absurd (Option.some_inj.mp hcw2) (fun hx => hwne hx.symm)
    · rw [htask, if_neg (fun hcon => heq hcon.1)]
      exact hcw2

theorem wake_up_one_WF (s : WaitSt) (qid : Nat) (hwf : WaitWF s) :
    WaitWF (wake_up_one s qid) := by
  unfold wake_up_one
  split
  · exact hwf
  · rename_i wid rest hqa
    have hq : qid < s.queues.length :=
      queue_at_lt_of_ne_nil s qid (by rw [hqa]; simp)
    have hm : wid ∈ queue_at s qid := by
      rw [hqa]
      exact List.mem_cons_self _ _
    exact (wake_step_spec s qid wid hq hm hwf).1

theorem wake_up_one_post (s : WaitSt) (qid wid : Nat) (rest : List Nat)
    (hqa : queue_at s qid = wid :: rest) (hwf : WaitWF s) :
    task_at (wake_up_one s qid) (s.wait_task wid) = ⟨TaskSt.ready, none⟩ ∧
    linked_count (wake_up_one s qid) wid = 0 := by
  have hq : qid < s.queues.length :=
    queue_at_lt_of_ne_nil s qid (by rw [hqa]; simp)
  have hm : wid ∈ queue_at s qid := by
    rw [hqa]
    exact List.mem_cons_self _ _
  have hspec := wake_step_spec s qid wid hq hm hwf
  unfold wake_up_one
  rw [hqa]
  exact ⟨hspec.2.1, hspec.2.2⟩

theorem wake_up_all_aux_WF (qid : Nat) :
    ∀ (l : List Nat) (s : WaitSt), WaitWF s →
      WaitWF (wake_up_all_aux qid l s) := by
  intro l
  induction l with
  | nil => intro s hwf; exact hwf
  | cons x rest ih =>
    intro s hwf
    exact ih (wake_up_one s qid) (wake_up_one_WF s qid hwf)

theorem wake_up_all_WF (s : WaitSt) (qid : Nat) (hwf : WaitWF s) :
    WaitWF (wake_up_all s qid) :=
  wake_up_all_aux_WF qid (queue_at s qid) s hwf

theorem cons_sublist_erase (wid : Nat) :
    ∀ (q rest : List Nat), List.Sublist (wid :: rest) q →
      List.Sublist rest (q.erase wid) := by
  intro q
  induction q with
  | nil =>
    intro rest h
    exact absurd h (by simp)
  | cons x q' ih =>
    intro rest h
    by_cases hx : x = wid
    · subst hx
      rw [List.erase_cons_head]
      cases h with
      | cons _ h2 => exact (List.sublist_cons_self x rest).trans h2
      | cons₂ _ h2 => exact h2
    · rw [List.erase_cons_tail (by simp [hx])]
      cases h with
      | cons _ h2 => exact (ih rest h2).cons x
      | cons₂ _ h2 => exact absurd rfl hx

theorem queue_at_step (s : WaitSt) (qid wid : Nat)
    (hq : qid < s.queues.length) :
    queue_at (complete_wait (remove_from_queue s qid wid) wid) qid =
      (queue_at s qid).erase wid := by
  have : queue_at (complete_wait (remove_from_queue s qid wid) wid) qid =
      queue_at (remove_from_queue s qid wid) qid := rfl
  rw [this]
  unfold queue_at remove_from_queue
  simp only []
  rw [list_getD_set, if_pos ⟨rfl, hq⟩]
  rfl

theorem queues_len_step (s : WaitSt) (qid wid : Nat) :
    (complete_wait (remove_from_queue s qid wid) wid).queues.length =
      s.queues.length := by
  simp [complete_wait, remove_from_queue]

theorem wake_cond_aux_spec (cond : Nat → Bool) (qid : Nat) :
    ∀ (l : List Nat) (s : WaitSt), WaitWF s → qid < s.queues.length →
      List.Sublist l (queue_at s qid) →
      WaitWF (wake_up_all_cond_aux cond qid l s) ∧
      (wake_up_all_cond_aux cond qid l s).wait_task = s.wait_task ∧
      (∀ w, linked_count s w = 0 →
        task_at s (s.wait_task w) = ⟨TaskSt.ready, none⟩ →
        linked_count (wake_up_all_cond_aux cond qid l s) w = 0 ∧
        task_at (wake_up_all_cond_aux cond qid l s) (s.wait_task w) =
          ⟨TaskSt.ready, none⟩) ∧
      (∀ w ∈ l, cond w = true →
        linked_count (wake_up_all_cond_aux cond qid l s) w = 0 ∧
        task_at (wake_up_all_cond_aux cond qid l s) (s.wait_task w) =
          ⟨TaskSt.ready, none⟩) := by
  intro l
  induction l with
  | nil =>
    intro s hwf hq hsub
    exact ⟨hwf, rfl, fun w h1 h2 => ⟨h1, h2⟩, by simp⟩
  | cons wid rest ih =>
    intro s hwf hq hsub
    have hm : wid ∈ queue_at s qid := hsub.subset (List.mem_cons_self _ _)
    by_cases hcond : cond wid = true
    · -- the head is woken up
      have hspec := wake_step_spec s qid wid hq hm hwf
      obtain ⟨hcnt_wid, hcnt_ne⟩ := wake_step_counts s qid wid hq hm
      have htask := wake_step_task_at s qid wid
      have hq2 : qid <
          (complete_wait (remove_from_queue s qid wid) wid).queues.length := by
        rw [queues_len_step]
        exact hq
      have hsub2 : List.Sublist rest
          (queue_at (complete_wait (remove_from_queue s qid wid) wid) qid) := by
        rw [queue_at_step s qid wid hq]
        exact cons_sublist_erase wid _ rest hsub
      obtain ⟨A, B, C, D⟩ :=
        ih (complete_wait (remove_from_queue s qid wid) wid) hspec.1 hq2 hsub2
      have haux : wake_up_all_cond_aux cond qid (wid :: rest) s =
          wake_up_all_cond_aux cond qid rest
            (complete_wait (remove_from_queue s qid wid) wid) := by
        simp only [wake_up_all_cond_aux]
        rw [if_pos hcond]
      rw [haux]
      have hwt2 : (complete_wait (remove_from_queue s qid wid) wid).wait_task =
          s.wait_task := rfl
      refine ⟨A, by rw [B, hwt2], ?_, ?_⟩
      · -- stability
        intro w h1 h2
        have h1' : linked_count
            (complete_wait (remove_from_queue s qid wid) wid) w = 0 := by
          by_cases hww : w = wid
          · subst hww
            omega
          · rw [hcnt_ne w hww]
            exact h1
        have h2' : task_at (complete_wait (remove_from_queue s qid wid) wid)
            (s.wait_task w) = ⟨TaskSt.ready, none⟩ := by
          rw [htask]
          split
          · rfl
          · exact h2
        have := C w h1' (by rw [hwt2]; exact h2')
        rw [hwt2] at this
        exact this
      · -- every woken wait is completed
        intro w hw hcw
        rcases List.mem_cons.mp hw with hww | hww
        · subst hww
          have := C w hspec.2.2 (by rw [hwt2]; exact hspec.2.1)
          rw [hwt2] at this
          exact this
        · have := D w hww hcw
          rw [hwt2] at this
          exact this
    · -- the head is skipped
      have hsub2 : List.Sublist rest (queue_at s qid) :=
        (List.sublist_cons_self wid rest).trans hsub
      obtain ⟨A, B, C, D⟩ := ih s hwf hq hsub2
      have haux : wake_up_all_cond_aux cond qid (wid :: rest) s =
          wake_up_all_cond_aux cond qid rest s := by
        simp only [wake_up_all_cond_aux]
        rw [if_neg hcond]
      rw [haux]
      refine ⟨A, B, C, ?_⟩
      intro w hw hcw
      rcases List.mem_cons.mp hw with hww | hww
      · subst hww
        exact absurd hcw hcond
      · exact D w hww hcw

theorem wait_inner_WF (s : WaitSt) (qid wid tid : Nat)
    (htid : tid < s.tasks.length)
    (hrun : (task_at s tid).st = TaskSt.running)
    (hq : qid < s.queues.length)
    (hfresh : linked_count s wid = 0)
    (hwf : WaitWF s) : WaitWF (wait_inner s qid wid tid) := by
  have hcw_none : (task_at s tid).current_wait = none := by
    cases hcwv : (task_at s tid).current_wait with
    | none => rfl
    | some w =>
      have hx := (hwf.cw_waiting tid w htid hcwv).1
      rw [hrun] at hx
      exact absurd hx (by decide)
  have htask : ∀ j, task_at (wait_inner s qid wid tid) j =
      if tid = j ∧ j < s.tasks.length then ⟨TaskSt.waiting, some wid⟩
      else task_at s j := by
    intro j
    unfold task_at wait_inner
    simp only []
    exact list_getD_set s.tasks tid j _ _
  have hlen : (wait_inner s qid wid tid).tasks.length = s.tasks.length := by
    simp [wait_inner]
  have hwt : ∀ w, (wait_inner s qid wid tid).wait_task w =
      if w = wid then tid else s.wait_task w := fun _ => rfl
  have hcount : ∀ w : Nat, linked_count (wait_inner s qid wid tid) w =
      linked_count s w + List.count w [wid] := by
    intro w
    have hsame : linked_count (wait_inner s qid wid tid) w =
        linked_count
          { s with queues := s.queues.set qid (queue_at s qid ++ [wid]) } w :=
      rfl
    have h1 := linked_count_set_queue s qid (queue_at s qid ++ [wid]) hq w
    rw [List.count_append] at h1
    omega
  have hcnt_wid : linked_count (wait_inner s qid wid tid) wid = 1 := by
    rw [hcount wid, hfresh]
    simp
  have hcnt_ne : ∀ w, w ≠ wid →
      linked_count (wait_inner s qid wid tid) w = linked_count s w := by
    intro w hw
    rw [hcount w]
    have : List.count w [wid] = 0 := by
      simp [List.count_cons, hw]
    omega
  refine ⟨?_, ?_, ?_⟩
  · -- cw_waiting
    intro tid' w h1 h2
    rw [hlen] at h1
    by_cases he : tid = tid' ∧ tid' < s.tasks.length
    · rw [htask tid', if_pos he] at h2
      have hww : w = wid := by
        simpa using h2.symm
      subst hww
      rw [htask tid', if_pos he, hwt]
      refine ⟨rfl, ?_, hcnt_wid⟩
      rw [if_pos rfl]
      exact he.1
    · rw [htask tid', if_neg he] at h2
      obtain ⟨hw1, hw2, hw3⟩ := hwf.cw_waiting tid' w h1 h2
      have hwne : w ≠ wid := by
        intro hww
        subst hww
        omega
      rw [htask tid', if_neg he, hwt]
      rw [if_neg hwne]
      exact ⟨hw1, hw2, by rw [hcnt_ne w hwne]; exact hw3⟩
  · -- waiting_cw
    intro tid' h1 hstw
    rw [hlen] at h1
    by_cases he : tid = tid' ∧ tid' < s.tasks.length
    · rw [htask tid', if_pos he]
      simp
    · rw [htask tid', if_neg he] at hstw ⊢
      exact hwf.waiting_cw tid' h1 hstw
  · -- linked_back
    intro w hp
    by_cases hww : w = wid
    · subst hww
      rw [hwt, if_pos rfl, hlen, htask tid, if_pos ⟨rfl, htid⟩]
      exact ⟨htid, rfl⟩
    · rw [hcnt_ne w hww] at hp
      obtain ⟨hlt, hcw2⟩ := hwf.linked_back w hp
      rw [hwt, if_neg hww, hlen]
      refine ⟨hlt, ?_⟩
      by_cases he : tid = s.wait_task w ∧ s.wait_task w < s.tasks.length
      · rw [← he.1] at hcw2
        rw [hcw_none] at hcw2
        exact absurd hcw2 (by simp)
      · rw [htask (s.wait_task w), if_neg he]
        exact hcw2


theorem exampleWaitSt_WF : WaitWF exampleWaitSt := by
  refine ⟨?_, ?_, ?_⟩
  · intro tid wid h1 h2
    have h0 : tid = 0 := by simpa [exampleWaitSt] using h1
    subst h0
    simp [task_at, exampleWaitSt] at h2
  · intro tid h1 hst
    have h0 : tid = 0 := by simpa [exampleWaitSt] using h1
    subst h0
    simp [task_at, exampleWaitSt] at hst
  · intro wid hp
    simp [linked_count, exampleWaitSt] at hp

/-- C2: for every task `t` of a well-formed wait-subsystem state, `t` is
Waiting iff `t.current_wait` is set and the referenced wait record is linked in
exactly one wait queue; this well-formedness is preserved by entering a wait
(`wait_inner`, for the running task with a fresh stack-resident wait record)
and by every wake-up flavor (`wake_up_one`, `wake_up_all`,
`wake_up_all_conditional`).  Moreover a completed wait ends with the wait
record unlinked from every queue and the task's `current_wait` cleared, with
the task made Ready - which is what the resumed blocking call's assertions
observe. -/
theorem wait_invariant_spec (s : WaitSt) (hwf : WaitWF s) :
    (∀ tid, tid < s.tasks.length →
      ((task_at s tid).st = TaskSt.waiting ↔
        ∃ wid, (task_at s tid).current_wait = some wid ∧
          linked_count s wid = 1)) ∧
    (∀ qid wid tid, tid < s.tasks.length →
      (task_at s tid).st = TaskSt.running → qid < s.queues.length →
      linked_count s wid = 0 → WaitWF (wait_inner s qid wid tid)) ∧
    (∀ qid, WaitWF (wake_up_one s qid)) ∧
    (∀ qid, WaitWF (wake_up_all s qid)) ∧
    (∀ qid cond, WaitWF (wake_up_all_cond s qid cond)) ∧
    (∀ qid wid rest, queue_at s qid = wid :: rest →
      task_at (wake_up_one s qid) (s.wait_task wid) = ⟨TaskSt.ready, none⟩ ∧
      linked_count (wake_up_one s qid) wid = 0) ∧
    (∀ qid cond wid, wid ∈ queue_at s qid → cond wid = true →
      task_at (wake_up_all_cond s qid cond) (s.wait_task wid) =
        ⟨TaskSt.ready, none⟩ ∧
      linked_count (wake_up_all_cond s qid cond) wid = 0) := by
  refine ⟨?_, ?_, ?_, ?_, ?_, ?_, ?_⟩
  · intro tid h
    constructor
    · intro hst
      have hcw := hwf.waiting_cw tid h hst
      cases hcwv : (task_at s tid).current_wait with
      | none => exact absurd hcwv hcw
      | some wid =>
        exact ⟨wid, rfl, (hwf.cw_waiting tid wid h hcwv).2.2⟩
    · rintro ⟨wid, hcw, -⟩
      exact (hwf.cw_waiting tid wid h hcw).1
  · intro qid wid tid h1 h2 h3 h4
    exact wait_inner_WF s qid wid tid h1 h2 h3 h4 hwf
  · intro qid
    exact wake_up_one_WF s qid hwf
  · intro qid
    exact wake_up_all_WF s qid hwf
  · intro qid cond
    by_cases hq : qid < s.queues.length
    · exact (wake_cond_aux_spec cond qid (queue_at s qid) s hwf hq
        (List.Sublist.refl _)).1
    · have he : queue_at s qid = [] :=
        List.getD_eq_default _ _ (by omega)
      unfold wake_up_all_cond
      rw [he]
      exact hwf
  · intro qid wid rest hqa
    exact wake_up_one_post s qid wid rest hqa hwf
  · intro qid cond wid hm hc
    have hq : qid < s.queues.length := by
      refine queue_at_lt_of_ne_nil s qid ?_
      intro he
      rw [he] at hm
      simp at hm
    obtain ⟨A, B, C, D⟩ := wake_cond_aux_spec cond qid (queue_at s qid) s hwf
      hq (List.Sublist.refl _)
    have hd := D wid hm hc
    exact ⟨hd.2, hd.1⟩

/-- Witness for C2: a one-task, one-queue kernel state; the running task
blocks with wait record 5, and waking the queue completes it. -/
theorem wait_invariant_spec_witness :
    WaitWF (wait_inner exampleWaitSt 0 5 0) ∧
    WaitWF (wake_up_one exampleWaitSt 0) := by
  have h := wait_invariant_spec exampleWaitSt exampleWaitSt_WF
  exact ⟨h.2.1 0 5 0 (by simp [exampleWaitSt])
    (by simp [task_at, exampleWaitSt]) (by simp [exampleWaitSt])
    (by simp [linked_count, exampleWaitSt]), h.2.2.1 0⟩
